import Mathlib

/-!
Shallow embedding of the ijump Go structural analyzer (`src/goAstParser.ts`
together with its subprocess extractor `src/parser/goparser.go`).

JavaScript `Map`s are modelled as insertion-ordered association lists;
`Map.set` replaces an existing binding in place and otherwise appends,
`Map.delete` removes the binding, and iteration follows list order, which
matches the JS iteration order for maps whose key set is not mutated during
iteration (the resolver never adds interface keys while iterating them).
JS `Set`s that are only tested for membership are modelled as lists.
String prefix/suffix tests are modelled over the underlying character lists.
-/

/-- Model of `String.prototype.startsWith`. -/
def strStartsWith (s p : String) : Bool := p.data.isPrefixOf s.data

/-- Model of `String.prototype.endsWith`. -/
def strEndsWith (s p : String) : Bool := p.data.isSuffixOf s.data

/-- Model of `String.prototype.substring(n)`. -/
def strDrop (s : String) (n : Nat) : String := ⟨s.data.drop n⟩

/-- `Map.get`: first binding of key `k`. -/
def mget {α : Type} (m : List (String × α)) (k : String) : Option α :=
  match m with
  | [] => none
  | (k', v) :: t => if k' = k then some v else mget t k

/-- `Map.set`: replace the binding of `k` in place, else append it. -/
def mset {α : Type} (m : List (String × α)) (k : String) (v : α) : List (String × α) :=
  match m with
  | [] => [(k, v)]
  | (k', v') :: t => if k' = k then (k, v) :: t else (k', v') :: mset t k v

/-- `Map.delete`: remove the binding of `k`. -/
def mdel {α : Type} (m : List (String × α)) (k : String) : List (String × α) :=
  match m with
  | [] => []
  | (k', v') :: t => if k' = k then mdel t k else (k', v') :: mdel t k

/-- Source location attached to a fact (`{line, uri}` values of the TS maps). -/
structure Loc where
  line : Nat
  uri : String
deriving DecidableEq, Repr

/-- One field record of a `structsMap` entry, as built by `getStructsInfo`
(`{type, line, uri, embedded}`; `isPointer` is dropped there). -/
structure FieldEntry where
  type : String
  line : Nat
  uri : String
  embedded : Bool
deriving DecidableEq, Repr

/-- One `structsMap` entry, as built by `getStructsInfo`: the keys
`'line'`, `'uri'`, `'fields'` are always set; the optional key
`'implementsInterfaces'` is modelled as an `Option`. -/
structure StructEntry where
  line : Nat
  uri : String
  fields : List (String × FieldEntry)
  implementsInterfaces : Option (List String)
deriving DecidableEq, Repr

/-- The state grown by `checkInterfaceImplementations`:
`implementedInterfaces` (the returned set) and the per-interface
satisfying-struct sets `interfaceImplementations`. -/
structure ResolveState where
  implementedInterfaces : List String
  interfaceImplementations : List (String × List String)
deriving DecidableEq, Repr

/-- The satisfying-struct set recorded for interface `i`. -/
def satSet (st : ResolveState) (i : String) : List String :=
  (mget st.interfaceImplementations i).getD []

/-- The `addImplementation` helper of `checkInterfaceImplementations`. -/
def addImplementation (i s : String) (st : ResolveState) : ResolveState :=
  { implementedInterfaces :=
      if i ∈ st.implementedInterfaces then st.implementedInterfaces
      else st.implementedInterfaces ++ [i],
    interfaceImplementations :=
      match mget st.interfaceImplementations i with
      | none => st.interfaceImplementations ++ [(i, [s])]
      | some l =>
          mset st.interfaceImplementations i (if s ∈ l then l else l ++ [s]) }

/-- `structName.startsWith('__') && structName.endsWith('__')`. -/
def isMarkerName (s : String) : Bool := strStartsWith s "__" && strEndsWith s "__"

/-- The non-marker method names of one struct entry of `structMethodsMap`
(keys not starting with `'__'`). -/
def nonMarkerKeys {α : Type} (m : List (String × α)) : List String :=
  (m.map Prod.fst).filter (fun n => !strStartsWith n "__")

/-- `implementedMethodCount`: how many of the interface's methods occur in
the struct's method-name set. -/
def implementedMethodCount (ifaceMethods names : List String) : Nat :=
  (ifaceMethods.filter (fun m => m ∈ names)).length

/-- `implementationRate`: the source computes
`interfaceMethods.length > 0 ? implementedMethodCount / interfaceMethods.length : 0`
as a JS number; quotients of counts this small are exact, so it is modelled
as a rational. -/
def matchRate (ifaceMethods names : List String) : ℚ :=
  if 0 < ifaceMethods.length then
    (implementedMethodCount ifaceMethods names : ℚ) / (ifaceMethods.length : ℚ)
  else 0

/-- The explicit-declaration pass (`structsMap` entries carrying an
`implementsInterfaces` list naming a known interface). -/
def explicitPass (imm : List (String × List String))
    (structsMap : List (String × StructEntry)) (st : ResolveState) : ResolveState :=
  structsMap.foldl (fun st p =>
    match p.2.implementsInterfaces with
    | none => st
    | some l =>
        l.foldl (fun st i =>
          if (mget imm i).isSome then addImplementation i p.1 st else st) st) st

/-- One struct entry of the method-matching pass: skip marker keys and
already-recorded pairs, then record on a perfect match
(`implementationRate === 1.0`; the interface loop guarantees a non-empty
method list, under which the float test is exactly
`implementedMethodCount = interfaceMethods.length`). -/
def matchStep (ifaceName : String) (ifaceMethods : List String)
    (st : ResolveState) (p : String × List (String × Loc)) : ResolveState :=
  if isMarkerName p.1 || decide (p.1 ∈ satSet st ifaceName) then st
  else
    if implementedMethodCount ifaceMethods (nonMarkerKeys p.2) = ifaceMethods.length then
      addImplementation ifaceName p.1 st
    else st

/-- The method-matching pass: every interface with a non-empty method list
that is not yet known to be implemented is checked against every struct. -/
def matchPass (imm : List (String × List String))
    (smm : List (String × List (String × Loc))) (st : ResolveState) : ResolveState :=
  imm.foldl (fun st p =>
    if p.2.length = 0 || decide (p.1 ∈ st.implementedInterfaces) then st
    else smm.foldl (matchStep p.1 p.2) st) st

/-- Innermost step of the embedding closure: one recorded interface checked
against one embedded field's type. -/
def closureFieldStep (structName fieldType : String)
    (acc : ResolveState × Bool) (p : String × List String) : ResolveState × Bool :=
  if fieldType ∈ p.2 || p.1 = fieldType then
    if structName ∈ satSet acc.1 p.1 then acc
    else (addImplementation p.1 structName acc.1, true)
  else acc

/-- One struct of the embedding-closure sweep: every embedded field is
checked against every recorded interface. -/
def closureStruct (acc : ResolveState × Bool) (p : String × StructEntry) :
    ResolveState × Bool :=
  if p.2.fields.length = 0 then acc
  else p.2.fields.foldl (fun acc q =>
    if q.2.embedded then
      acc.1.interfaceImplementations.foldl (closureFieldStep p.1 q.2.type) acc
    else acc) acc

/-- One full sweep of the embedding closure over all structs; the boolean is
`hasNewImplementation`. -/
def closureSweep (structsMap : List (String × StructEntry)) (st : ResolveState) :
    ResolveState × Bool :=
  structsMap.foldl closureStruct (st, false)

/-- The `while (hasNewImplementation && iterations < maxIterations)` loop. -/
def closureLoop (structsMap : List (String × StructEntry)) :
    Nat → ResolveState → ResolveState
  | 0, st => st
  | n + 1, st =>
      let r := closureSweep structsMap st
      if r.2 then closureLoop structsMap n r.1 else r.1

/-- The embedding-closure pass with its iteration cap `maxIterations = 5`. -/
def closurePass (structsMap : List (String × StructEntry)) (st : ResolveState) :
    ResolveState :=
  closureLoop structsMap 5 st

/-- Receiver-type keys starting with `'*'`, with the `'*'` stripped. -/
def pointerReceivers (smm : List (String × List (String × Loc))) : List String :=
  ((smm.map Prod.fst).filter (fun n => strStartsWith n "*")).map (fun n => strDrop n 1)

/-- A struct's effective method-name set in the defensive pointer pass: the
union of the non-marker keys of its bare-name entry and of its
`'*'`-prefixed entry. -/
def unionMethodNames (smm : List (String × List (String × Loc)))
    (structName : String) : List String :=
  (match mget smm structName with
   | some m => nonMarkerKeys m
   | none => []) ++
  (match mget smm ("*" ++ structName) with
   | some m => nonMarkerKeys m
   | none => [])

/-- One candidate of the pointer pass: record on a perfect match of the
unified method set. -/
def pointerStep (smm : List (String × List (String × Loc)))
    (ifaceName : String) (ifaceMethods : List String)
    (st : ResolveState) (structName : String) : ResolveState :=
  if (mget smm structName).isSome || (mget smm ("*" ++ structName)).isSome then
    if implementedMethodCount ifaceMethods (unionMethodNames smm structName) =
        ifaceMethods.length then
      addImplementation ifaceName structName st
    else st
  else st

/-- The defensive pointer-receiver pass. -/
def pointerPass (imm : List (String × List String))
    (smm : List (String × List (String × Loc))) (st : ResolveState) : ResolveState :=
  imm.foldl (fun st p =>
    if p.2.length = 0 || decide (p.1 ∈ st.implementedInterfaces) then st
    else (pointerReceivers smm).foldl (pointerStep smm p.1 p.2) st) st

/-- The state left by the explicit-declaration pass on the fresh state. -/
def explicitState (imm : List (String × List String))
    (structsMap : Option (List (String × StructEntry))) : ResolveState :=
  match structsMap with
  | some sm => explicitPass imm sm ⟨[], []⟩
  | none => ⟨[], []⟩

/-- `GoAstParser.checkInterfaceImplementations`: explicit declarations, then
method matching, then embedding closure, then the pointer pass. The TS
function returns `implementedInterfaces`; the satisfying sets are the
`interfaceImplementations` component of the final state. -/
def checkInterfaceImplementations (imm : List (String × List String))
    (smm : List (String × List (String × Loc)))
    (structsMap : Option (List (String × StructEntry))) : ResolveState :=
  let st := explicitState imm structsMap
  let st := matchPass imm smm st
  let st :=
    match structsMap with
    | some sm => closurePass sm st
    | none => st
  pointerPass imm smm st

/-! ### The extractor's data model (`goparser.go` JSON output / TS interfaces) -/

/-- `MethodInfo` of the extractor output. -/
structure MethodInfo where
  name : String
  line : Nat
  filePath : String
deriving DecidableEq, Repr

/-- `InterfaceInfo` of the extractor output (`internalType` is the optional
single embedded interface name). -/
structure InterfaceInfo where
  name : String
  line : Nat
  filePath : String
  methods : List MethodInfo
  internalType : Option String
deriving DecidableEq, Repr

/-- `FieldInfo` of the extractor output. -/
structure FieldInfo where
  name : String
  type : String
  line : Nat
  filePath : String
  embedded : Bool
  isPointer : Bool
deriving DecidableEq, Repr

/-- `StructInfo` of the extractor output. -/
structure StructInfo where
  name : String
  line : Nat
  filePath : String
  fields : List FieldInfo
deriving DecidableEq, Repr

/-- `ImplementationInfo` of the extractor output: a method bound to a
receiver type; `receiverType` is the bare type name (the Go-side
`getTypeNameFromExpr` strips the `*`, recording it in `isPointer`). -/
structure ImplementationInfo where
  receiverType : String
  methodName : String
  line : Nat
  filePath : String
  isPointer : Bool
deriving DecidableEq, Repr

/-- `PackageInfo` of the extractor output. -/
structure PackageInfo where
  path : String
  name : String
  interfaces : List InterfaceInfo
  structs : List StructInfo
  methods : List ImplementationInfo
deriving DecidableEq, Repr

/-- `GoAstResult`: the whole-analysis result, a map from package directory
to package facts. -/
structure GoAstResult where
  packages : List (String × PackageInfo)
deriving DecidableEq, Repr

/-- `GoAstParser.getImplementations`: receiver type name to
(method name to location), plus a `'__struct_def__'` marker entry per
declared struct. `isPointer` of a method fact is never consulted. -/
def getImplementations (result : GoAstResult) : List (String × List (String × Loc)) :=
  result.packages.foldl (fun smm p =>
    let smm := p.2.methods.foldl (fun smm m =>
      mset smm m.receiverType
        (mset ((mget smm m.receiverType).getD []) m.methodName ⟨m.line, m.filePath⟩)) smm
    p.2.structs.foldl (fun smm s =>
      mset smm s.name
        (mset ((mget smm s.name).getD []) "__struct_def__" ⟨s.line, s.filePath⟩)) smm) []

/-- `GoAstParser.findInterfaceImplementationMarkers`: the TS body is empty
(a stub that scans no comments), so the struct map passes through
unchanged. -/
def findInterfaceImplementationMarkers (result : GoAstResult)
    (structsMap : List (String × StructEntry)) : List (String × StructEntry) :=
  structsMap

/-- `GoAstParser.getStructsInfo`: struct name to its entry (location,
fields); the `interfaceNames` argument is unused by the TS body, and
`findInterfaceImplementationMarkers` is applied to the built map. -/
def getStructsInfo (result : GoAstResult) (interfaceNames : List String) :
    List (String × StructEntry) :=
  findInterfaceImplementationMarkers result
    (result.packages.foldl (fun sm p =>
      p.2.structs.foldl (fun sm s =>
        mset sm s.name
          ⟨s.line, s.filePath,
           s.fields.foldl (fun fm f =>
             mset fm f.name ⟨f.type, f.line, f.filePath, f.embedded⟩) [],
           none⟩) sm) [])

/-- Rewrite every method fact's `isPointer` flag, leaving everything else
(receiver type, method name, location) unchanged: the difference between a
pointer-receiver and a value-receiver extraction of the same method. -/
def mapMethodsPtr (f : ImplementationInfo → Bool) (r : GoAstResult) : GoAstResult :=
  ⟨r.packages.map (fun p =>
    (p.1, { p.2 with methods := p.2.methods.map (fun m => { m with isPointer := f m }) }))⟩

/-! ### The result cache of `GoAstParser` -/

/-- `cacheTimeToLive` (package tier, ms). -/
def cacheTimeToLive : Nat := 300000

/-- `fileCacheTimeToLive` (file tier, ms). -/
def fileCacheTimeToLive : Nat := 30000

/-- POSIX `path.dirname`. -/
def dirname (p : String) : String :=
  match p.data.reverse.dropWhile (fun c => c ≠ '/') with
  | [] => "."
  | ['/'] => "/"
  | _ :: t => ⟨t.reverse⟩

/-- `GoAstParser.getPackagePath`. -/
def getPackagePath (filePath : String) : String := dirname filePath

/-- The five cache maps of `GoAstParser`. -/
structure ParserState where
  parseCache : List (String × GoAstResult)
  fileCache : List (String × GoAstResult)
  packageCache : List (String × String)
  cacheTimes : List (String × Nat)
  fileCacheTimes : List (String × Nat)
deriving DecidableEq, Repr

/-- The degraded result `{packages: {}}`. -/
def emptyResult : GoAstResult := ⟨[]⟩

/-- Outcome of the delegated extraction attempt inside `parseGoFile`: each
failure constructor is one `return {packages: {}}` branch of the source
(parser not ready, file missing, `execFile` rejection, `JSON.parse` throw,
`!result || !result.packages`); `parsed` is a successfully decoded result. -/
inductive ExtractOutcome where
  | parserNotReady : ExtractOutcome
  | fileMissing : ExtractOutcome
  | execFailure : ExtractOutcome
  | jsonFailure : ExtractOutcome
  | invalidResult : ExtractOutcome
  | parsed : GoAstResult → ExtractOutcome
deriving DecidableEq, Repr

/-- Whether the delegated extraction failed. -/
def isFailure : ExtractOutcome → Bool
  | .parsed _ => false
  | _ => true

/-- The file-tier cache test of `parseGoFile`
(`fileCache.has(f) && now - (fileCacheTimes.get(f) || 0) < fileCacheTimeToLive`). -/
def fileCacheFresh (st : ParserState) (filePath : String) (now : Nat) : Bool :=
  (mget st.fileCache filePath).isSome &&
    decide (now - ((mget st.fileCacheTimes filePath).getD 0) < fileCacheTimeToLive)

/-- The package-tier cache test of `parseGoFile`. -/
def pkgCacheFresh (st : ParserState) (packagePath : String) (now : Nat) : Bool :=
  (mget st.parseCache packagePath).isSome &&
    decide (now - ((mget st.cacheTimes packagePath).getD 0) < cacheTimeToLive)

/-- The slow (recomputation) path of `parseGoFile`: every failure branch of
the source returns the degraded `{packages: {}}` instead of throwing; a
decoded result is cached in both tiers only when it contains at least one
package. -/
def parseGoFileSlow (env : ExtractOutcome) (st : ParserState)
    (filePath packagePath : String) (now : Nat) : GoAstResult × ParserState :=
  match env with
  | .parsed r =>
      if 0 < r.packages.length then
        (r, { st with
              parseCache := mset st.parseCache packagePath r,
              cacheTimes := mset st.cacheTimes packagePath now,
              fileCache := mset st.fileCache filePath r,
              fileCacheTimes := mset st.fileCacheTimes filePath now })
      else (r, st)
  | _ => (emptyResult, st)

/-- `GoAstParser.parseGoFile`: file tier, then package tier (recording the
file-to-package mapping and refreshing the file tier), then the slow path. -/
def parseGoFile (env : ExtractOutcome) (st : ParserState) (filePath : String)
    (now : Nat) : GoAstResult × ParserState :=
  if fileCacheFresh st filePath now then
    ((mget st.fileCache filePath).getD emptyResult, st)
  else
    let packagePath := getPackagePath filePath
    let st := { st with packageCache := mset st.packageCache filePath packagePath }
    if pkgCacheFresh st packagePath now then
      let r := (mget st.parseCache packagePath).getD emptyResult
      (r, { st with fileCache := mset st.fileCache filePath r,
                    fileCacheTimes := mset st.fileCacheTimes filePath now })
    else parseGoFileSlow env st filePath packagePath now

/-- `GoAstParser.clearCache(filePath)`: drop the file's file-tier entries
and its owning package's package-tier entries (`packageCache.get(filePath)
|| getPackagePath(filePath)`; the mapping itself is kept). -/
def clearCacheFile (st : ParserState) (filePath : String) : ParserState :=
  let packagePath := (mget st.packageCache filePath).getD (getPackagePath filePath)
  { st with fileCache := mdel st.fileCache filePath,
            fileCacheTimes := mdel st.fileCacheTimes filePath,
            parseCache := mdel st.parseCache packagePath,
            cacheTimes := mdel st.cacheTimes packagePath }

/-- `GoAstParser.clearCache()`: empty the four cache maps. -/
def clearCacheAll (st : ParserState) : ParserState :=
  { st with fileCache := [], fileCacheTimes := [], parseCache := [], cacheTimes := [] }

/-- The implicit cache invariant: every cached result (either tier) holds
at least one package. -/
def cacheResultsNonEmpty (st : ParserState) : Prop :=
  (∀ p ∈ st.parseCache, p.2.packages ≠ []) ∧ (∀ p ∈ st.fileCache, p.2.packages ≠ [])

/-- A sample one-package result (used as a concrete cache value). -/
def sampleResult : GoAstResult := ⟨[("a", ⟨"a", "main", [], [], []⟩)]⟩

/-- A sample populated cache state for `a/b.go` in package directory `a`. -/
def sampleParserState : ParserState :=
  ⟨[("a", sampleResult)], [("a/b.go", sampleResult)], [("a/b.go", "a")],
   [("a", 10)], [("a/b.go", 10)]⟩

/-! ### Association-list lemmas -/

theorem mget_mset_self {α : Type} (m : List (String × α)) (k : String) (v : α) :
    mget (mset m k v) k = some v := by
  induction m with
  | nil => simp [mset, mget]
  | cons p t ih =>
      obtain ⟨k', v'⟩ := p
      by_cases h : k' = k <;> simp [mset, mget, h, ih]

theorem mget_mset_ne {α : Type} (m : List (String × α)) (k k' : String) (v : α)
    (h : k ≠ k') : mget (mset m k v) k' = mget m k' := by
  induction m with
  | nil => simp [mset, mget, h]
  | cons p t ih =>
      obtain ⟨a, b⟩ := p
      by_cases ha : a = k
      · subst ha; simp [mset, mget, h]
      · simp [mset, mget, ha, ih]

theorem mget_mdel_self {α : Type} (m : List (String × α)) (k : String) :
    mget (mdel m k) k = none := by
  induction m with
  | nil => simp [mdel, mget]
  | cons p t ih =>
      obtain ⟨a, b⟩ := p
      by_cases ha : a = k <;> simp [mdel, mget, ha, ih]

theorem mget_mdel_ne {α : Type} (m : List (String × α)) (k k' : String)
    (h : k ≠ k') : mget (mdel m k) k' = mget m k' := by
  induction m with
  | nil => simp [mdel, mget]
  | cons p t ih =>
      obtain ⟨a, b⟩ := p
      by_cases ha : a = k
      · subst ha; simp [mdel, mget, h, Ne.symm h, ih]
      · simp [mdel, mget, ha, ih]

theorem mem_of_mget {α : Type} {m : List (String × α)} {k : String} {v : α}
    (h : mget m k = some v) : (k, v) ∈ m := by
  induction m with
  | nil => simp [mget] at h
  | cons p t ih =>
      obtain ⟨a, b⟩ := p
      by_cases ha : a = k
      · subst ha
        simp [mget] at h
        simp [h]
      · simp [mget, ha] at h
        exact List.mem_cons_of_mem _ (ih h)

theorem mget_eq_some_of_mem_nodup {α : Type} {m : List (String × α)} {k : String} {v : α}
    (hnd : (m.map Prod.fst).Nodup) (h : (k, v) ∈ m) : mget m k = some v := by
  induction m with
  | nil => simp at h
  | cons p t ih =>
      obtain ⟨a, b⟩ := p
      simp only [List.map_cons, List.nodup_cons] at hnd
      rcases List.mem_cons.mp h with h1 | h1
      · cases h1; simp [mget]
      · have hak : a ≠ k := by
          intro hak
          subst hak
          exact hnd.1 (List.mem_map.mpr ⟨(a, v), h1, rfl⟩)
        simp [mget, hak]
        exact ih hnd.2 h1

theorem mem_mset {α : Type} {m : List (String × α)} {k : String} {v : α} {q : String × α}
    (h : q ∈ mset m k v) : q = (k, v) ∨ q ∈ m := by
  induction m with
  | nil => simp [mset] at h; simp [h]
  | cons p t ih =>
      obtain ⟨a, b⟩ := p
      by_cases ha : a = k
      · subst ha
        simp [mset] at h
        rcases h with h | h
        · exact Or.inl h
        · exact Or.inr (List.mem_cons_of_mem _ h)
      · simp [mset, ha] at h
        rcases h with h | h
        · exact Or.inr (by simp [h])
        · rcases ih h with h1 | h1
          · exact Or.inl h1
          · exact Or.inr (List.mem_cons_of_mem _ h1)

theorem mem_mdel {α : Type} {m : List (String × α)} {k : String} {q : String × α}
    (h : q ∈ mdel m k) : q ∈ m := by
  induction m with
  | nil => simp [mdel] at h
  | cons p t ih =>
      obtain ⟨a, b⟩ := p
      by_cases ha : a = k
      · subst ha
        simp [mdel] at h
        exact List.mem_cons_of_mem _ (ih h)
      · simp [mdel, ha] at h
        rcases h with h | h
        · simp [h]
        · exact List.mem_cons_of_mem _ (ih h)

theorem mget_append {α : Type} (m₁ m₂ : List (String × α)) (k : String) :
    mget (m₁ ++ m₂) k = (mget m₁ k).elim (mget m₂ k) some := by
  induction m₁ with
  | nil => simp [mget]
  | cons p t ih =>
      obtain ⟨a, b⟩ := p
      by_cases ha : a = k <;> simp [mget, ha, ih]

/-! ### `addImplementation` lemmas -/

theorem satSet_addImplementation_self (i s : String) (st : ResolveState) :
    s ∈ satSet (addImplementation i s st) i := by
  unfold addImplementation satSet
  cases h : mget st.interfaceImplementations i with
  | none =>
      simp only [mget_append, h, Option.elim]
      simp [mget]
  | some l =>
      simp only [mget_mset_self, Option.getD_some]
      by_cases hs : s ∈ l <;> simp [hs]

theorem satSet_addImplementation_mono {i' s' : String} (i s : String)
    (st : ResolveState) (h : s' ∈ satSet st i') :
    s' ∈ satSet (addImplementation i s st) i' := by
  unfold addImplementation satSet
  by_cases hii : i = i'
  · subst hii
    cases hg : mget st.interfaceImplementations i with
    | none => simp [satSet, hg] at h
    | some l =>
        simp only [mget_mset_self, Option.getD_some]
        simp only [satSet, hg, Option.getD_some] at h
        by_cases hs : s ∈ l <;> simp [hs, h, List.mem_append]
  · cases hg : mget st.interfaceImplementations i with
    | none =>
        simp only [mget_append, Option.elim]
        cases hg' : mget st.interfaceImplementations i' with
        | none => simp [satSet, hg'] at h
        | some l' => simpa [satSet, hg'] using h
    | some l =>
        rw [mget_mset_ne _ _ _ _ hii]
        simpa [satSet] using h

theorem mem_satSet_addImplementation {i' s' : String} {i s : String}
    {st : ResolveState} (h : s' ∈ satSet (addImplementation i s st) i') :
    s' ∈ satSet st i' ∨ (i' = i ∧ s' = s) := by
  unfold addImplementation satSet at h
  by_cases hii : i = i'
  · subst hii
    cases hg : mget st.interfaceImplementations i with
    | none =>
        rw [hg] at h
        simp only [mget_append, hg, Option.elim] at h
        simp [mget] at h
        exact Or.inr ⟨rfl, h⟩
    | some l =>
        rw [hg] at h
        simp only [mget_mset_self, Option.getD_some] at h
        by_cases hs : s ∈ l
        · simp only [hs, if_pos] at h
          exact Or.inl (by simpa [satSet, hg] using h)
        · simp only [hs, if_neg, not_false_iff, List.mem_append, List.mem_singleton] at h
          rcases h with h | h
          · exact Or.inl (by simpa [satSet, hg] using h)
          · exact Or.inr ⟨rfl, h⟩
  · cases hg : mget st.interfaceImplementations i with
    | none =>
        rw [hg] at h
        simp only [mget_append, Option.elim] at h
        cases hg' : mget st.interfaceImplementations i' with
        | none =>
            rw [hg'] at h
            simp [mget, hii] at h
        | some l' =>
            rw [hg'] at h
            exact Or.inl (by simpa [satSet, hg'] using h)
    | some l =>
        rw [hg, mget_mset_ne _ _ _ _ hii] at h
        exact Or.inl (by simpa [satSet] using h)

theorem mem_implemented_addImplementation {i' : String} {i s : String}
    {st : ResolveState}
    (h : i' ∈ (addImplementation i s st).implementedInterfaces) :
    i' ∈ st.implementedInterfaces ∨ i' = i := by
  unfold addImplementation at h
  by_cases hi : i ∈ st.implementedInterfaces
  · simp only [hi, if_pos] at h
    exact Or.inl h
  · simp only [hi, if_neg, not_false_iff, List.mem_append, List.mem_singleton] at h
    tauto

theorem implemented_addImplementation_mono {i' : String} (i s : String)
    (st : ResolveState) (h : i' ∈ st.implementedInterfaces) :
    i' ∈ (addImplementation i s st).implementedInterfaces := by
  unfold addImplementation
  by_cases hi : i ∈ st.implementedInterfaces <;> simp [hi, h]

/-! ### Generic fold lemmas -/

theorem foldl_satSet_mono {β : Type} {g : ResolveState → β → ResolveState}
    (hg : ∀ st b i s, s ∈ satSet st i → s ∈ satSet (g st b) i)
    (l : List β) (st : ResolveState) {i s : String} (h : s ∈ satSet st i) :
    s ∈ satSet (l.foldl g st) i := by
  induction l generalizing st with
  | nil => exact h
  | cons b t ih => exact ih _ (hg st b i s h)

theorem foldl_satSet_mono2 {β : Type}
    {g : ResolveState × Bool → β → ResolveState × Bool}
    (hg : ∀ acc b i s, s ∈ satSet acc.1 i → s ∈ satSet (g acc b).1 i)
    (l : List β) (acc : ResolveState × Bool) {i s : String}
    (h : s ∈ satSet acc.1 i) : s ∈ satSet (l.foldl g acc).1 i := by
  induction l generalizing acc with
  | nil => exact h
  | cons b t ih => exact ih _ (hg acc b i s h)

theorem foldl_flag_mono {β : Type}
    {g : ResolveState × Bool → β → ResolveState × Bool}
    (hg : ∀ acc b, acc.2 = true → (g acc b).2 = true)
    (l : List β) (acc : ResolveState × Bool) (h : acc.2 = true) :
    (l.foldl g acc).2 = true := by
  induction l generalizing acc with
  | nil => exact h
  | cons b t ih => exact ih _ (hg acc b h)

theorem foldl_eq_of_flag_false {β : Type}
    {g : ResolveState × Bool → β → ResolveState × Bool}
    (h1 : ∀ acc b, (g acc b).2 = false → g acc b = acc)
    (h2 : ∀ acc b, acc.2 = true → (g acc b).2 = true)
    (l : List β) (acc : ResolveState × Bool)
    (h : (l.foldl g acc).2 = false) : l.foldl g acc = acc := by
  induction l generalizing acc with
  | nil => rfl
  | cons b t ih =>
      rw [List.foldl_cons] at h ⊢
      have hb : (g acc b).2 = false := by
        cases hgb : (g acc b).2
        · rfl
        · rw [foldl_flag_mono h2 t _ hgb] at h
          exact absurd h (by simp)
      rw [h1 _ _ hb] at h ⊢
      exact ih _ h

/-! ### Per-pass monotonicity of the satisfying sets -/

theorem satSet_matchStep_mono (j : String) (ms : List String)
    (st : ResolveState) (p : String × List (String × Loc)) {i s : String}
    (h : s ∈ satSet st i) : s ∈ satSet (matchStep j ms st p) i := by
  unfold matchStep
  split
  · exact h
  · split
    · exact satSet_addImplementation_mono _ _ _ h
    · exact h

theorem satSet_matchPass_mono (imm : List (String × List String))
    (smm : List (String × List (String × Loc))) (st : ResolveState)
    {i s : String} (h : s ∈ satSet st i) :
    s ∈ satSet (matchPass imm smm st) i := by
  unfold matchPass
  refine foldl_satSet_mono ?_ imm st h
  intro st p i s h
  split
  · exact h
  · exact foldl_satSet_mono (fun st q i s h => satSet_matchStep_mono _ _ _ _ h) smm st h

theorem satSet_explicitPass_mono (imm : List (String × List String))
    (sm : List (String × StructEntry)) (st : ResolveState)
    {i s : String} (h : s ∈ satSet st i) :
    s ∈ satSet (explicitPass imm sm st) i := by
  unfold explicitPass
  refine foldl_satSet_mono ?_ sm st h
  intro st p i s h
  split
  · exact h
  · refine foldl_satSet_mono ?_ _ st h
    intro st j i s h
    split
    · exact satSet_addImplementation_mono _ _ _ h
    · exact h

theorem satSet_closureFieldStep_mono (n t : String)
    (acc : ResolveState × Bool) (p : String × List String) {i s : String}
    (h : s ∈ satSet acc.1 i) : s ∈ satSet (closureFieldStep n t acc p).1 i := by
  unfold closureFieldStep
  split
  · split
    · exact h
    · exact satSet_addImplementation_mono _ _ _ h
  · exact h

theorem satSet_closureStruct_mono (acc : ResolveState × Bool)
    (p : String × StructEntry) {i s : String} (h : s ∈ satSet acc.1 i) :
    s ∈ satSet (closureStruct acc p).1 i := by
  unfold closureStruct
  split
  · exact h
  · refine foldl_satSet_mono2 ?_ _ acc h
    intro acc q i s h
    split
    · exact foldl_satSet_mono2
        (fun acc r i s h => satSet_closureFieldStep_mono _ _ _ _ h) _ acc h
    · exact h

theorem satSet_closureSweep_mono (sm : List (String × StructEntry))
    (st : ResolveState) {i s : String} (h : s ∈ satSet st i) :
    s ∈ satSet (closureSweep sm st).1 i := by
  unfold closureSweep
  exact foldl_satSet_mono2 (fun acc p i s h => satSet_closureStruct_mono _ _ h) _ _ h

theorem satSet_closureLoop_mono (sm : List (String × StructEntry))
    (n : Nat) (st : ResolveState) {i s : String} (h : s ∈ satSet st i) :
    s ∈ satSet (closureLoop sm n st) i := by
  induction n generalizing st with
  | zero => exact h
  | succ n ih =>
      unfold closureLoop
      simp only []
      split
      · exact ih _ (satSet_closureSweep_mono sm st h)
      · exact satSet_closureSweep_mono sm st h

theorem satSet_pointerStep_mono (smm : List (String × List (String × Loc)))
    (j : String) (ms : List String) (st : ResolveState) (n : String)
    {i s : String} (h : s ∈ satSet st i) :
    s ∈ satSet (pointerStep smm j ms st n) i := by
  unfold pointerStep
  split
  · split
    · exact satSet_addImplementation_mono _ _ _ h
    · exact h
  · exact h

theorem satSet_pointerPass_mono (imm : List (String × List String))
    (smm : List (String × List (String × Loc))) (st : ResolveState)
    {i s : String} (h : s ∈ satSet st i) :
    s ∈ satSet (pointerPass imm smm st) i := by
  unfold pointerPass
  refine foldl_satSet_mono ?_ imm st h
  intro st p i s h
  split
  · exact h
  · exact foldl_satSet_mono (fun st n i s h => satSet_pointerStep_mono _ _ _ _ _ h) _ st h

/-! ### Flag behaviour of the embedding-closure sweep -/

theorem closureFieldStep_eq_of_flag_false (n t : String)
    (acc : ResolveState × Bool) (p : String × List String)
    (h : (closureFieldStep n t acc p).2 = false) :
    closureFieldStep n t acc p = acc := by
  unfold closureFieldStep at h ⊢
  split at h
  · split at h
    · split <;> simp_all
    · simp at h
  · split <;> simp_all

theorem closureFieldStep_flag_mono (n t : String)
    (acc : ResolveState × Bool) (p : String × List String)
    (h : acc.2 = true) : (closureFieldStep n t acc p).2 = true := by
  unfold closureFieldStep
  split
  · split
    · exact h
    · rfl
  · exact h

theorem closureStruct_eq_of_flag_false (acc : ResolveState × Bool)
    (p : String × StructEntry) (h : (closureStruct acc p).2 = false) :
    closureStruct acc p = acc := by
  by_cases he : p.2.fields.length = 0
  · simp [closureStruct, he]
  · simp only [closureStruct, if_neg he] at h ⊢
    refine foldl_eq_of_flag_false ?_ ?_ _ _ h
    · intro a q hq
      by_cases hq2 : q.2.embedded = true
      · simp only [if_pos hq2] at hq ⊢
        exact foldl_eq_of_flag_false (closureFieldStep_eq_of_flag_false p.1 q.2.type)
          (closureFieldStep_flag_mono p.1 q.2.type) _ _ hq
      · simp only [if_neg hq2]
    · intro a q hq
      by_cases hq2 : q.2.embedded = true
      · simp only [if_pos hq2]
        exact foldl_flag_mono (closureFieldStep_flag_mono p.1 q.2.type) _ _ hq
      · simpa only [if_neg hq2]

theorem closureStruct_flag_mono (acc : ResolveState × Bool)
    (p : String × StructEntry) (h : acc.2 = true) :
    (closureStruct acc p).2 = true := by
  unfold closureStruct
  split
  · exact h
  · refine foldl_flag_mono ?_ _ _ h
    intro acc q hq
    split
    · exact foldl_flag_mono (closureFieldStep_flag_mono p.1 q.2.type) _ _ hq
    · exact hq

theorem closureSweep_eq_of_flag_false (sm : List (String × StructEntry))
    (st : ResolveState) (h : (closureSweep sm st).2 = false) :
    closureSweep sm st = (st, false) := by
  unfold closureSweep at h ⊢
  exact foldl_eq_of_flag_false closureStruct_eq_of_flag_false
    closureStruct_flag_mono _ _ h

/-! ### Which satisfying sets a pass can touch -/

theorem satSet_addImplementation_ne {i' : String} (i s : String)
    (st : ResolveState) (h : i ≠ i') :
    satSet (addImplementation i s st) i' = satSet st i' := by
  unfold addImplementation satSet
  cases hg : mget st.interfaceImplementations i with
  | none =>
      simp only [mget_append]
      cases hg' : mget st.interfaceImplementations i' <;> simp [hg', mget, h]
  | some l => rw [mget_mset_ne _ _ _ _ h]

theorem satSet_matchInner_ne {j I : String} (hne : j ≠ I) (ms : List String)
    (smm : List (String × List (String × Loc))) (st : ResolveState) :
    satSet (smm.foldl (matchStep j ms) st) I = satSet st I := by
  induction smm generalizing st with
  | nil => rfl
  | cons p t ih =>
      rw [List.foldl_cons, ih]
      unfold matchStep
      split
      · rfl
      · split
        · exact satSet_addImplementation_ne _ _ _ hne
        · rfl

theorem satSet_pointerInner_ne {j I : String} (hne : j ≠ I)
    (smm : List (String × List (String × Loc))) (ms : List String)
    (l : List String) (st : ResolveState) :
    satSet (l.foldl (pointerStep smm j ms) st) I = satSet st I := by
  induction l generalizing st with
  | nil => rfl
  | cons n t ih =>
      rw [List.foldl_cons, ih]
      unfold pointerStep
      split
      · split
        · exact satSet_addImplementation_ne _ _ _ hne
        · rfl
      · rfl

theorem implemented_matchInner {j : String} {ms : List String}
    {smm : List (String × List (String × Loc))} {st : ResolveState} {i' : String}
    (h : i' ∈ (smm.foldl (matchStep j ms) st).implementedInterfaces) :
    i' ∈ st.implementedInterfaces ∨ i' = j := by
  induction smm generalizing st with
  | nil => exact Or.inl h
  | cons p t ih =>
      rw [List.foldl_cons] at h
      rcases ih h with h1 | h1
      · unfold matchStep at h1
        split at h1
        · exact Or.inl h1
        · split at h1
          · exact mem_implemented_addImplementation h1
          · exact Or.inl h1
      · exact Or.inr h1

/-! ### Counting lemmas -/

theorem implementedMethodCount_eq_length {ms names : List String}
    (h : ∀ m ∈ ms, m ∈ names) :
    implementedMethodCount ms names = ms.length := by
  unfold implementedMethodCount
  have : ms.filter (fun m => decide (m ∈ names)) = ms :=
    List.filter_eq_self.mpr (fun a ha => decide_eq_true (h a ha))
  rw [this]

theorem implementedMethodCount_le {ms A B : List String}
    (h : ∀ m, m ∈ A → m ∈ B) :
    implementedMethodCount ms A ≤ implementedMethodCount ms B := by
  unfold implementedMethodCount
  simp only [← List.countP_eq_length_filter]
  refine List.countP_mono_left ?_
  intro a _ ha
  simp only [decide_eq_true_eq] at *
  exact h a ha

theorem all_mem_of_count_eq_length {ms names : List String}
    (h : implementedMethodCount ms names = ms.length) :
    ∀ m ∈ ms, m ∈ names := by
  unfold implementedMethodCount at h
  have := List.filter_length_eq_length.mp h
  intro m hm
  simpa using this m hm

/-! ### Reaching a full-match entry in the matching pass -/

theorem satSet_matchInner_mem {I : String} {ms : List String} {S : String}
    {e : List (String × Loc)} (l : List (String × List (String × Loc)))
    (st : ResolveState) (hmem : (S, e) ∈ l) (hmark : isMarkerName S = false)
    (hcount : implementedMethodCount ms (nonMarkerKeys e) = ms.length) :
    S ∈ satSet (l.foldl (matchStep I ms) st) I := by
  induction l generalizing st with
  | nil => simp at hmem
  | cons p t ih =>
      rw [List.foldl_cons]
      rcases List.mem_cons.mp hmem with h1 | h1
      · subst h1
        by_cases hin : S ∈ satSet st I
        · exact foldl_satSet_mono (fun st q i s h => satSet_matchStep_mono _ _ _ _ h) t _
            (satSet_matchStep_mono _ _ _ _ hin)
        · have hstep : matchStep I ms st (S, e) = addImplementation I S st := by
            unfold matchStep
            rw [if_neg (by simp [hmark, hin]), if_pos hcount]
          rw [hstep]
          exact foldl_satSet_mono (fun st q i s h => satSet_matchStep_mono _ _ _ _ h) t _
            (satSet_addImplementation_self I S st)
      · exact ih _ h1

theorem satSet_matchPass_mem {I : String} {ms : List String} {S : String}
    {e : List (String × Loc)} (smm : List (String × List (String × Loc)))
    (imm : List (String × List String)) (st : ResolveState)
    (hmm : (I, ms) ∈ imm) (hnd : (imm.map Prod.fst).Nodup)
    (hms : ms ≠ []) (hst : I ∉ st.implementedInterfaces)
    (hse : (S, e) ∈ smm) (hmark : isMarkerName S = false)
    (hcount : implementedMethodCount ms (nonMarkerKeys e) = ms.length) :
    S ∈ satSet (matchPass imm smm st) I := by
  induction imm generalizing st with
  | nil => simp at hmm
  | cons p t ih =>
      unfold matchPass
      rw [List.foldl_cons]
      simp only [List.map_cons, List.nodup_cons] at hnd
      rcases List.mem_cons.mp hmm with h1 | h1
      · subst h1
        have hguard : ¬(ms.length = 0 || decide (I ∈ st.implementedInterfaces)) = true := by
          simp [List.length_eq_zero, hms, hst]
        rw [if_neg hguard]
        have hmemI : S ∈ satSet (smm.foldl (matchStep I ms) st) I :=
          satSet_matchInner_mem smm st hse hmark hcount
        refine foldl_satSet_mono ?_ t _ hmemI
        intro st q i s h
        split
        · exact h
        · exact foldl_satSet_mono (fun st r i s h => satSet_matchStep_mono _ _ _ _ h) smm st h
      · have hpI : p.1 ≠ I := by
          intro hcon
          exact hnd.1 (hcon ▸ List.mem_map.mpr ⟨(I, ms), h1, rfl⟩)
        have hst' :
            I ∉ (if p.2.length = 0 || decide (p.1 ∈ st.implementedInterfaces) then st
                 else smm.foldl (matchStep p.1 p.2) st).implementedInterfaces := by
          split
          · exact hst
          · intro hcon
            rcases implemented_matchInner hcon with h2 | h2
            · exact hst h2
            · exact hpI h2.symm
        exact ih _ h1 hnd.2 hst'

/-! ### Preservation of a non-member through the matching passes -/

theorem notMem_satSet_matchInner {I S : String} {ms : List String} {U : List String}
    (hcnt : implementedMethodCount ms U < ms.length)
    (l : List (String × List (String × Loc))) (st : ResolveState)
    (hsub : ∀ e, (S, e) ∈ l → ∀ m ∈ nonMarkerKeys e, m ∈ U)
    (hst : S ∉ satSet st I) :
    S ∉ satSet (l.foldl (matchStep I ms) st) I := by
  induction l generalizing st with
  | nil => exact hst
  | cons p t ih =>
      rw [List.foldl_cons]
      refine ih _ ?_ ?_
      · intro e he m hm
        exact hsub e (List.mem_cons_of_mem _ he) m hm
      · unfold matchStep
        split
        · exact hst
        · split
          · rename_i hcond hfull
            intro hcon
            rcases mem_satSet_addImplementation hcon with h2 | h2
            · exact hst h2
            · obtain ⟨a, b⟩ := p
              have hbS : a = S := h2.2.symm
              subst hbS
              have : implementedMethodCount ms U = ms.length := by
                refine le_antisymm (by
                  unfold implementedMethodCount
                  exact List.length_filter_le _ _) ?_
                calc ms.length = implementedMethodCount ms (nonMarkerKeys b) := hfull.symm
                  _ ≤ implementedMethodCount ms U :=
                      implementedMethodCount_le (hsub b (List.mem_cons_self _ _))
              omega
          · exact hst

theorem notMem_satSet_matchPass {I S : String} {U : List String}
    (imm : List (String × List String)) (smm : List (String × List (String × Loc)))
    (st : ResolveState)
    (hsub : ∀ e, (S, e) ∈ smm → ∀ m ∈ nonMarkerKeys e, m ∈ U)
    (h : ∀ ms, (I, ms) ∈ imm → implementedMethodCount ms U < ms.length)
    (hst : S ∉ satSet st I) :
    S ∉ satSet (matchPass imm smm st) I := by
  induction imm generalizing st with
  | nil => exact hst
  | cons p t ih =>
      unfold matchPass
      rw [List.foldl_cons]
      have hstep :
          S ∉ satSet (if p.2.length = 0 || decide (p.1 ∈ st.implementedInterfaces) then st
            else smm.foldl (matchStep p.1 p.2) st) I := by
        split
        · exact hst
        · by_cases hpI : p.1 = I
          · subst hpI
            exact notMem_satSet_matchInner (h p.2 (by exact List.mem_cons_self _ _)) smm st hsub hst
          · rw [satSet_matchInner_ne hpI]
            exact hst
      exact ih _ (fun ms hms => h ms (List.mem_cons_of_mem _ hms)) hstep

theorem notMem_satSet_pointerInner {I S : String} {ms : List String}
    (smm : List (String × List (String × Loc)))
    (hcnt : implementedMethodCount ms (unionMethodNames smm S) < ms.length)
    (l : List String) (st : ResolveState) (hst : S ∉ satSet st I) :
    S ∉ satSet (l.foldl (pointerStep smm I ms) st) I := by
  induction l generalizing st with
  | nil => exact hst
  | cons n t ih =>
      rw [List.foldl_cons]
      refine ih _ ?_
      unfold pointerStep
      split
      · split
        · rename_i hfull
          intro hcon
          rcases mem_satSet_addImplementation hcon with h2 | h2
          · exact hst h2
          · have hnS : n = S := h2.2.symm
            subst hnS
            omega
        · exact hst
      · exact hst

theorem notMem_satSet_pointerPass {I S : String}
    (imm : List (String × List String)) (smm : List (String × List (String × Loc)))
    (st : ResolveState)
    (h : ∀ ms, (I, ms) ∈ imm → implementedMethodCount ms (unionMethodNames smm S) < ms.length)
    (hst : S ∉ satSet st I) :
    S ∉ satSet (pointerPass imm smm st) I := by
  induction imm generalizing st with
  | nil => exact hst
  | cons p t ih =>
      unfold pointerPass
      rw [List.foldl_cons]
      have hstep :
          S ∉ satSet (if p.2.length = 0 || decide (p.1 ∈ st.implementedInterfaces) then st
            else (pointerReceivers smm).foldl (pointerStep smm p.1 p.2) st) I := by
        split
        · exact hst
        · by_cases hpI : p.1 = I
          · subst hpI
            exact notMem_satSet_pointerInner smm (h p.2 (List.mem_cons_self _ _)) _ st hst
          · rw [satSet_pointerInner_ne hpI]
            exact hst
      exact ih _ (fun ms hms => h ms (List.mem_cons_of_mem _ hms)) hstep

/-! ### The explicit-declaration pass records its edges -/

theorem satSet_explicitInner_mem (imm : List (String × List String))
    (S : String) (l : List String) (st : ResolveState) {I : String}
    (hI : I ∈ l) (hknown : (mget imm I).isSome = true) :
    S ∈ satSet (l.foldl (fun st i =>
      if (mget imm i).isSome then addImplementation i S st else st) st) I := by
  induction l generalizing st with
  | nil => simp at hI
  | cons j t ih =>
      rw [List.foldl_cons]
      rcases List.mem_cons.mp hI with h1 | h1
      · subst h1
        rw [if_pos hknown]
        refine foldl_satSet_mono ?_ t _ (satSet_addImplementation_self I S st)
        intro st b i s h
        split
        · exact satSet_addImplementation_mono _ _ _ h
        · exact h
      · exact ih _ h1

theorem satSet_explicitPass_mem (imm : List (String × List String))
    (sm : List (String × StructEntry)) (st : ResolveState)
    {S I : String} {info : StructEntry} {l : List String}
    (hmem : (S, info) ∈ sm) (himpl : info.implementsInterfaces = some l)
    (hI : I ∈ l) (hknown : (mget imm I).isSome = true) :
    S ∈ satSet (explicitPass imm sm st) I := by
  induction sm generalizing st with
  | nil => simp at hmem
  | cons p t ih =>
      unfold explicitPass
      rw [List.foldl_cons]
      rcases List.mem_cons.mp hmem with h1 | h1
      · subst h1
        simp only [himpl]
        refine foldl_satSet_mono ?_ t _ (satSet_explicitInner_mem imm S l st hI hknown)
        intro st b i s h
        split
        · exact h
        · refine foldl_satSet_mono ?_ _ st h
          intro st j i s h
          split
          · exact satSet_addImplementation_mono _ _ _ h
          · exact h
      · exact ih _ h1

/-- The unified name set contains the names of the unique bare-key entry. -/
theorem nonMarkerKeys_subset_unionMethodNames
    {smm : List (String × List (String × Loc))} {S : String}
    {e : List (String × Loc)} (h : mget smm S = some e) :
    ∀ m ∈ nonMarkerKeys e, m ∈ unionMethodNames smm S := by
  intro m hm
  unfold unionMethodNames
  rw [h]
  exact List.mem_append_left _ hm

theorem satSet_closurePass_mono (sm : List (String × StructEntry))
    (st : ResolveState) {i s : String} (h : s ∈ satSet st i) :
    s ∈ satSet (closurePass sm st) i :=
  satSet_closureLoop_mono sm 5 st h

theorem satSet_matchPass_zero (I : String)
    (smm : List (String × List (String × Loc))) :
    ∀ (imm : List (String × List String)) (st : ResolveState),
    (∀ p ∈ imm, p.1 = I → p.2 = ([] : List String)) →
    satSet (matchPass imm smm st) I = satSet st I := by
  intro imm
  induction imm with
  | nil => intro st h; rfl
  | cons p t ih =>
      intro st h
      unfold matchPass
      rw [List.foldl_cons]
      refine Eq.trans (ih _ (fun q hq hqI => h q (List.mem_cons_of_mem _ hq) hqI)) ?_
      by_cases hguard : (p.2.length = 0 || decide (p.1 ∈ st.implementedInterfaces)) = true
      · rw [if_pos hguard]
      · rw [if_neg hguard]
        have hpI : p.1 ≠ I := by
          intro hcon
          have := h p (List.mem_cons_self _ _) hcon
          simp [this] at hguard
        exact satSet_matchInner_ne hpI _ _ _

theorem satSet_pointerPass_zero (I : String)
    (smm : List (String × List (String × Loc))) :
    ∀ (imm : List (String × List String)) (st : ResolveState),
    (∀ p ∈ imm, p.1 = I → p.2 = ([] : List String)) →
    satSet (pointerPass imm smm st) I = satSet st I := by
  intro imm
  induction imm with
  | nil => intro st h; rfl
  | cons p t ih =>
      intro st h
      unfold pointerPass
      rw [List.foldl_cons]
      refine Eq.trans (ih _ (fun q hq hqI => h q (List.mem_cons_of_mem _ hq) hqI)) ?_
      by_cases hguard : (p.2.length = 0 || decide (p.1 ∈ st.implementedInterfaces)) = true
      · rw [if_pos hguard]
      · rw [if_neg hguard]
        have hpI : p.1 ≠ I := by
          intro hcon
          have := h p (List.mem_cons_self _ _) hcon
          simp [this] at hguard
        exact satSet_pointerInner_ne hpI _ _ _ _

/-! ### `getStructsInfo` never sets `implementsInterfaces` -/

theorem structsFold_no_forced_edges (ss : List StructInfo)
    (acc : List (String × StructEntry))
    (hacc : ∀ p ∈ acc, p.2.implementsInterfaces = none) :
    ∀ p ∈ ss.foldl (fun sm s =>
        mset sm s.name
          ⟨s.line, s.filePath,
           s.fields.foldl (fun fm f =>
             mset fm f.name ⟨f.type, f.line, f.filePath, f.embedded⟩) [],
           none⟩) acc,
      p.2.implementsInterfaces = none := by
  induction ss generalizing acc with
  | nil => exact hacc
  | cons s t ih =>
      rw [List.foldl_cons]
      refine ih _ ?_
      intro p hp
      rcases mem_mset hp with h1 | h1
      · rw [h1]
      · exact hacc p h1

theorem packagesFold_no_forced_edges (ps : List (String × PackageInfo))
    (acc : List (String × StructEntry))
    (hacc : ∀ p ∈ acc, p.2.implementsInterfaces = none) :
    ∀ p ∈ ps.foldl (fun sm p =>
        p.2.structs.foldl (fun sm s =>
          mset sm s.name
            ⟨s.line, s.filePath,
             s.fields.foldl (fun fm f =>
               mset fm f.name ⟨f.type, f.line, f.filePath, f.embedded⟩) [],
             none⟩) sm) acc,
      p.2.implementsInterfaces = none := by
  induction ps generalizing acc with
  | nil => exact hacc
  | cons q t ih =>
      rw [List.foldl_cons]
      exact ih _ (structsFold_no_forced_edges _ _ hacc)

theorem explicitPass_of_no_forced_edges (sm : List (String × StructEntry))
    (hsm : ∀ p ∈ sm, p.2.implementsInterfaces = none) :
    ∀ (imm : List (String × List String)) (st : ResolveState),
    explicitPass imm sm st = st := by
  induction sm with
  | nil => intro imm st; rfl
  | cons p t ih =>
      intro imm st
      unfold explicitPass
      rw [List.foldl_cons]
      have hstep :
          (match p.2.implementsInterfaces with
           | none => st
           | some l =>
               l.foldl (fun st i =>
                 if (mget imm i).isSome then addImplementation i p.1 st else st) st) = st := by
        rw [hsm p (List.mem_cons_self _ _)]
      rw [hstep]
      exact ih (fun q hq => hsm q (List.mem_cons_of_mem _ hq)) imm st

/-! ## Claim theorems -/

/-- C3: a struct carrying a forced-implementation edge
(`implementsInterfaces`) naming an interface that exists in the
interface-method map is recorded as satisfying that interface
unconditionally — no hypothesis on the struct's methods is needed, so the
edge is recorded even at a 0 match rate, and nothing in the later passes
removes it. -/
theorem checkII_explicit_edge_recorded
    (imm : List (String × List String)) (smm : List (String × List (String × Loc)))
    (sm : List (String × StructEntry)) (S I : String) (info : StructEntry)
    (l : List String)
    (hmem : (S, info) ∈ sm)
    (himpl : info.implementsInterfaces = some l)
    (hI : I ∈ l)
    (hknown : (mget imm I).isSome = true) :
    S ∈ satSet (checkInterfaceImplementations imm smm (some sm)) I := by
  unfold checkInterfaceImplementations
  exact satSet_pointerPass_mono _ _ _
    (satSet_closurePass_mono _ _
      (satSet_matchPass_mono _ _ _
        (satSet_explicitPass_mem imm sm _ hmem himpl hI hknown)))

/-- Witness for C3: the `Empty` struct has no methods at all, yet its
explicit edge to interface `I` (one declared method `M`) is recorded. -/
theorem checkII_explicit_edge_recorded_witness :
    "Empty" ∈ satSet (checkInterfaceImplementations [("I", ["M"])] []
      (some [("Empty", ⟨1, "f.go", [], some ["I"]⟩)])) "I" :=
  checkII_explicit_edge_recorded [("I", ["M"])] []
    [("Empty", ⟨1, "f.go", [], some ["I"]⟩)] "Empty" "I"
    ⟨1, "f.go", [], some ["I"]⟩ ["I"] (by decide) rfl (by decide) (by decide)

/-- C5: an interface whose every entry in the interface-method map carries
an empty method list gains no struct from the method-matching pass nor from
the defensive pointer-receiver pass: both leave its satisfying set exactly
as they found it. -/
theorem matching_passes_skip_zero_method_interfaces
    (imm : List (String × List String)) (smm : List (String × List (String × Loc)))
    (st : ResolveState) (I : String)
    (h : ∀ p ∈ imm, p.1 = I → p.2 = ([] : List String)) :
    satSet (matchPass imm smm st) I = satSet st I ∧
    satSet (pointerPass imm smm st) I = satSet st I :=
  ⟨satSet_matchPass_zero I smm imm st h, satSet_pointerPass_zero I smm imm st h⟩

/-- Witness for C5: a zero-method interface against a struct that has
methods; neither matching pass touches its (empty) satisfying set. -/
theorem matching_passes_skip_zero_method_interfaces_witness :
    satSet (matchPass [("E", [])] [("S", [("M", ⟨1, "f.go"⟩)])] ⟨[], []⟩) "E" =
      satSet (⟨[], []⟩ : ResolveState) "E" ∧
    satSet (pointerPass [("E", [])] [("S", [("M", ⟨1, "f.go"⟩)])] ⟨[], []⟩) "E" =
      satSet (⟨[], []⟩ : ResolveState) "E" :=
  matching_passes_skip_zero_method_interfaces [("E", [])]
    [("S", [("M", ⟨1, "f.go"⟩)])] ⟨[], []⟩ "E" (by decide)

/-- C6: the embedding-closure sweep only ever adds (interface, struct)
edges (and so does the capped closure loop), and a sweep that discovered no
new edge left the state unchanged, so a further sweep discovers no new edge
either: a converged state is a fixed point. -/
theorem closureSweep_monotone_and_fixpoint (sm : List (String × StructEntry))
    (st : ResolveState) :
    (∀ i s, s ∈ satSet st i → s ∈ satSet (closureSweep sm st).1 i) ∧
    (∀ i s, s ∈ satSet st i → s ∈ satSet (closurePass sm st) i) ∧
    ((closureSweep sm st).2 = false →
      closureSweep sm (closureSweep sm st).1 = (st, false)) := by
  refine ⟨fun i s h => satSet_closureSweep_mono sm st h,
          fun i s h => satSet_closureLoop_mono sm 5 st h, ?_⟩
  intro hfalse
  have he := closureSweep_eq_of_flag_false sm st hfalse
  rw [he]
  exact he

/-- Witness for C6: a struct with one embedded field over a state with no
recorded interfaces is converged; the next sweep is a no-op with no new
edge. -/
theorem closureSweep_monotone_and_fixpoint_witness :
    (closureSweep [("W", ⟨1, "f.go", [("F", ⟨"F", 2, "f.go", true⟩)], none⟩)]
      ⟨[], []⟩).2 = false ∧
    closureSweep [("W", ⟨1, "f.go", [("F", ⟨"F", 2, "f.go", true⟩)], none⟩)]
      (closureSweep [("W", ⟨1, "f.go", [("F", ⟨"F", 2, "f.go", true⟩)], none⟩)]
        ⟨[], []⟩).1 = (⟨[], []⟩, false) :=
  ⟨by decide,
   (closureSweep_monotone_and_fixpoint
     [("W", ⟨1, "f.go", [("F", ⟨"F", 2, "f.go", true⟩)], none⟩)] ⟨[], []⟩).2.2
     (by decide)⟩

/-- C4: the extraction pipeline records no forced-implementation edge, for
any input whatsoever: `findInterfaceImplementationMarkers` is an empty stub
(and the Go extractor discards comments), so every entry produced by
`getStructsInfo` carries no `implementsInterfaces` key and the
explicit-declaration pass is a no-op on its output — contradicting the
documented `ensure <Struct> implements <Interface>` directive. -/
theorem getStructsInfo_records_no_forced_edges (result : GoAstResult)
    (interfaceNames : List String) :
    (∀ p ∈ getStructsInfo result interfaceNames, p.2.implementsInterfaces = none) ∧
    (∀ (imm : List (String × List String)) (st : ResolveState),
      explicitPass imm (getStructsInfo result interfaceNames) st = st) := by
  have h1 : ∀ p ∈ getStructsInfo result interfaceNames,
      p.2.implementsInterfaces = none := by
    unfold getStructsInfo findInterfaceImplementationMarkers
    exact packagesFold_no_forced_edges _ _ (by simp)
  exact ⟨h1, fun imm st => explicitPass_of_no_forced_edges _ h1 imm st⟩

/-- C7: flipping the `isPointer` flag of any method facts — i.e. extracting
a method from a pointer receiver instead of a value receiver, all else
equal — changes neither the aggregated receiver-method map, nor any match
rate computed from it, nor the resolver's verdicts. -/
theorem pointer_value_receiver_unification (f : ImplementationInfo → Bool)
    (r : GoAstResult) (imm : List (String × List String))
    (structsMap : Option (List (String × StructEntry)))
    (ms : List String) (S : String) :
    getImplementations (mapMethodsPtr f r) = getImplementations r ∧
    matchRate ms (unionMethodNames (getImplementations (mapMethodsPtr f r)) S) =
      matchRate ms (unionMethodNames (getImplementations r) S) ∧
    checkInterfaceImplementations imm (getImplementations (mapMethodsPtr f r)) structsMap =
      checkInterfaceImplementations imm (getImplementations r) structsMap := by
  have h : getImplementations (mapMethodsPtr f r) = getImplementations r := by
    simp only [getImplementations, mapMethodsPtr, List.foldl_map]
  exact ⟨h, by rw [h], by rw [h]⟩

/-- C1 counterexample: interface `I` declares five methods and struct `S`
implements four of them, so the match rate is exactly 0.8 (≥ 0.8 and
< 1.0), yet the resolver does not record `S` as satisfying `I`: the
current source accepts only a perfect match. -/
theorem partial_match_counterexample :
    (8 : ℚ)/10 ≤ matchRate ["A", "B", "C", "D", "E"]
      (unionMethodNames [("S", [("A", ⟨1, "f.go"⟩), ("B", ⟨2, "f.go"⟩),
        ("C", ⟨3, "f.go"⟩), ("D", ⟨4, "f.go"⟩)])] "S") ∧
    matchRate ["A", "B", "C", "D", "E"]
      (unionMethodNames [("S", [("A", ⟨1, "f.go"⟩), ("B", ⟨2, "f.go"⟩),
        ("C", ⟨3, "f.go"⟩), ("D", ⟨4, "f.go"⟩)])] "S") < 1 ∧
    "S" ∉ satSet (checkInterfaceImplementations [("I", ["A", "B", "C", "D", "E"])]
      [("S", [("A", ⟨1, "f.go"⟩), ("B", ⟨2, "f.go"⟩),
        ("C", ⟨3, "f.go"⟩), ("D", ⟨4, "f.go"⟩)])] none) "I" := by
  have hcount : implementedMethodCount ["A", "B", "C", "D", "E"]
      (unionMethodNames [("S", [("A", ⟨1, "f.go"⟩), ("B", ⟨2, "f.go"⟩),
        ("C", ⟨3, "f.go"⟩), ("D", ⟨4, "f.go"⟩)])] "S") = 4 := by decide
  have hr : matchRate ["A", "B", "C", "D", "E"]
      (unionMethodNames [("S", [("A", ⟨1, "f.go"⟩), ("B", ⟨2, "f.go"⟩),
        ("C", ⟨3, "f.go"⟩), ("D", ⟨4, "f.go"⟩)])] "S") = (4 : ℚ)/5 := by
    unfold matchRate
    rw [hcount]
    norm_num
  refine ⟨by rw [hr]; norm_num, by rw [hr]; norm_num, by decide⟩

/-- C1 (amended): a struct whose effective method set covers strictly fewer
than all of an interface's methods (match rate below 1.0 — including the
whole 0.8–1.0 partial band) is never recorded as satisfying that interface
by the matching passes: only a full match records. -/
theorem checkII_partial_match_not_recorded
    (imm : List (String × List String)) (smm : List (String × List (String × Loc)))
    (I S : String) (ms : List String)
    (hndI : (imm.map Prod.fst).Nodup) (hndS : (smm.map Prod.fst).Nodup)
    (hI : mget imm I = some ms)
    (hcnt : implementedMethodCount ms (unionMethodNames smm S) < ms.length) :
    S ∉ satSet (checkInterfaceImplementations imm smm none) I := by
  have h : ∀ ms', (I, ms') ∈ imm →
      implementedMethodCount ms' (unionMethodNames smm S) < ms'.length := by
    intro ms' hmem
    have h2 := mget_eq_some_of_mem_nodup hndI hmem
    rw [hI] at h2
    injection h2 with h2
    rw [← h2]
    exact hcnt
  have hsub : ∀ e, (S, e) ∈ smm → ∀ m ∈ nonMarkerKeys e, m ∈ unionMethodNames smm S :=
    fun e he => nonMarkerKeys_subset_unionMethodNames (mget_eq_some_of_mem_nodup hndS he)
  unfold checkInterfaceImplementations explicitState
  refine notMem_satSet_pointerPass _ _ _ h ?_
  refine notMem_satSet_matchPass _ _ _ hsub h ?_
  simp [satSet, mget]

/-- Witness for C1 (amended): the 4-of-5 struct of the counterexample input
is not recorded. -/
theorem checkII_partial_match_not_recorded_witness :
    "S" ∉ satSet (checkInterfaceImplementations [("I", ["A", "B", "C", "D", "E"])]
      [("S", [("A", ⟨1, "f.go"⟩), ("B", ⟨2, "f.go"⟩),
        ("C", ⟨3, "f.go"⟩), ("D", ⟨4, "f.go"⟩)])] none) "I" :=
  checkII_partial_match_not_recorded [("I", ["A", "B", "C", "D", "E"])]
    [("S", [("A", ⟨1, "f.go"⟩), ("B", ⟨2, "f.go"⟩),
      ("C", ⟨3, "f.go"⟩), ("D", ⟨4, "f.go"⟩)])]
    "I" "S" ["A", "B", "C", "D", "E"] (by decide) (by decide) (by decide) (by decide)

/-- C2 counterexample: struct `B`'s effective method set covers all of
interface `I`'s methods (the implemented-method count equals `I`'s method
count), yet `B` is not put in `I`'s satisfying set, because another struct
`A` carries an explicit edge to `I` and the matching pass then skips `I`
entirely. -/
theorem full_match_counterexample :
    implementedMethodCount ["M"] (nonMarkerKeys [("M", (⟨1, "f.go"⟩ : Loc))]) =
      (["M"] : List String).length ∧
    "B" ∉ satSet (checkInterfaceImplementations [("I", ["M"])]
      [("B", [("M", ⟨1, "f.go"⟩)])]
      (some [("A", ⟨3, "f.go", [], some ["I"]⟩)])) "I" := by
  decide

/-- C2 (amended): a struct whose method-set entry covers all of an
interface's (at least one) methods is put in that interface's satisfying
set, provided the interface was not already marked implemented by the
explicit-declaration pass (which otherwise makes the matching pass skip the
interface). -/
theorem checkII_full_match_recorded
    (imm : List (String × List String)) (smm : List (String × List (String × Loc)))
    (structsMap : Option (List (String × StructEntry)))
    (I S : String) (ms : List String) (e : List (String × Loc))
    (hmm : (I, ms) ∈ imm) (hnd : (imm.map Prod.fst).Nodup) (hms : ms ≠ [])
    (hse : (S, e) ∈ smm) (hmark : isMarkerName S = false)
    (hcover : ∀ m ∈ ms, m ∈ nonMarkerKeys e)
    (hexp : I ∉ (explicitState imm structsMap).implementedInterfaces) :
    S ∈ satSet (checkInterfaceImplementations imm smm structsMap) I := by
  have hcount := implementedMethodCount_eq_length hcover
  have h1 : S ∈ satSet (matchPass imm smm (explicitState imm structsMap)) I :=
    satSet_matchPass_mem smm imm _ hmm hnd hms hexp hse hmark hcount
  unfold checkInterfaceImplementations
  cases structsMap with
  | none => exact satSet_pointerPass_mono _ _ _ h1
  | some sm => exact satSet_pointerPass_mono _ _ _ (satSet_closurePass_mono sm _ h1)

/-- Witness for C2 (amended): a full-match struct with no explicit
declarations in play is recorded. -/
theorem checkII_full_match_recorded_witness :
    "S" ∈ satSet (checkInterfaceImplementations [("I", ["M"])]
      [("S", [("M", ⟨1, "f.go"⟩)])] none) "I" :=
  checkII_full_match_recorded [("I", ["M"])] [("S", [("M", ⟨1, "f.go"⟩)])] none
    "I" "S" ["M"] [("M", ⟨1, "f.go"⟩)]
    (by decide) (by decide) (by decide) (by decide) (by decide) (by decide) (by decide)

/-! ### Cache lemmas and claims C8, C9, C10 -/

theorem fileCache_isSome_of_fresh {st : ParserState} {f : String} {now : Nat}
    (h : fileCacheFresh st f now = true) : (mget st.fileCache f).isSome = true := by
  unfold fileCacheFresh at h
  exact (Bool.and_eq_true _ _ |>.mp h).1

theorem parseCache_isSome_of_fresh {st : ParserState} {pp : String} {now : Nat}
    (h : pkgCacheFresh st pp now = true) : (mget st.parseCache pp).isSome = true := by
  unfold pkgCacheFresh at h
  exact (Bool.and_eq_true _ _ |>.mp h).1

/-- C8: `clearCache(f)` removes `f`'s value and timestamp from the file
tier and the owning package directory's value and timestamp from the
package tier (given the recorded file-to-package mapping, when present, is
the directory of `f`, as `parseGoFile` maintains), after which a
`parseGoFile(f)` call takes the slow recomputation path; `clearCache()`
with no argument empties all four cache maps. -/
theorem clearCache_invalidates
    (st : ParserState) (f : String) (env : ExtractOutcome) (now : Nat)
    (hpc : mget st.packageCache f = none ∨
           mget st.packageCache f = some (getPackagePath f)) :
    mget (clearCacheFile st f).fileCache f = none ∧
    mget (clearCacheFile st f).fileCacheTimes f = none ∧
    mget (clearCacheFile st f).parseCache (getPackagePath f) = none ∧
    mget (clearCacheFile st f).cacheTimes (getPackagePath f) = none ∧
    parseGoFile env (clearCacheFile st f) f now =
      parseGoFileSlow env
        { clearCacheFile st f with
          packageCache := mset (clearCacheFile st f).packageCache f (getPackagePath f) }
        f (getPackagePath f) now ∧
    (clearCacheAll st).fileCache = [] ∧ (clearCacheAll st).fileCacheTimes = [] ∧
    (clearCacheAll st).parseCache = [] ∧ (clearCacheAll st).cacheTimes = [] := by
  have hpp : (mget st.packageCache f).getD (getPackagePath f) = getPackagePath f := by
    rcases hpc with h | h <;> simp [h]
  have hcf : clearCacheFile st f =
      { st with fileCache := mdel st.fileCache f,
                fileCacheTimes := mdel st.fileCacheTimes f,
                parseCache := mdel st.parseCache (getPackagePath f),
                cacheTimes := mdel st.cacheTimes (getPackagePath f) } := by
    unfold clearCacheFile
    rw [hpp]
  have h1 : fileCacheFresh (clearCacheFile st f) f now = false := by
    rw [hcf]
    simp [fileCacheFresh, mget_mdel_self]
  have h2 : pkgCacheFresh
      { clearCacheFile st f with
        packageCache := mset (clearCacheFile st f).packageCache f (getPackagePath f) }
      (getPackagePath f) now = false := by
    rw [hcf]
    simp [pkgCacheFresh, mget_mdel_self]
  refine ⟨by rw [hcf]; exact mget_mdel_self _ _,
          by rw [hcf]; exact mget_mdel_self _ _,
          by rw [hcf]; exact mget_mdel_self _ _,
          by rw [hcf]; exact mget_mdel_self _ _, ?_, rfl, rfl, rfl, rfl⟩
  unfold parseGoFile
  rw [h1]
  simp only [Bool.false_eq_true, if_false]
  rw [h2]
  simp only [Bool.false_eq_true, if_false]

/-- Witness for C8, on a populated sample cache. -/
theorem clearCache_invalidates_witness :
    mget (clearCacheFile sampleParserState "a/b.go").fileCache "a/b.go" = none ∧
    mget (clearCacheFile sampleParserState "a/b.go").fileCacheTimes "a/b.go" = none ∧
    mget (clearCacheFile sampleParserState "a/b.go").parseCache
      (getPackagePath "a/b.go") = none ∧
    mget (clearCacheFile sampleParserState "a/b.go").cacheTimes
      (getPackagePath "a/b.go") = none ∧
    parseGoFile .execFailure (clearCacheFile sampleParserState "a/b.go") "a/b.go" 20 =
      parseGoFileSlow .execFailure
        { clearCacheFile sampleParserState "a/b.go" with
          packageCache := mset (clearCacheFile sampleParserState "a/b.go").packageCache
            "a/b.go" (getPackagePath "a/b.go") }
        "a/b.go" (getPackagePath "a/b.go") 20 ∧
    (clearCacheAll sampleParserState).fileCache = [] ∧
    (clearCacheAll sampleParserState).fileCacheTimes = [] ∧
    (clearCacheAll sampleParserState).parseCache = [] ∧
    (clearCacheAll sampleParserState).cacheTimes = [] :=
  clearCache_invalidates sampleParserState "a/b.go" .execFailure 20 (by decide)

/-- C9: with no fresh cache entry, every delegated-tool failure (parser
not ready, file missing, exec failure, bad or invalid JSON) makes
`parseGoFile` return the degraded `{packages: {}}` as an ordinary value —
nothing is thrown and no cache tier is written (only the file-to-package
mapping is recorded). -/
theorem parseGoFile_degrades_on_failure
    (env : ExtractOutcome) (st : ParserState) (f : String) (now : Nat)
    (hfail : isFailure env = true)
    (h1 : fileCacheFresh st f now = false)
    (h2 : pkgCacheFresh st (getPackagePath f) now = false) :
    parseGoFile env st f now =
      (emptyResult,
       { st with packageCache := mset st.packageCache f (getPackagePath f) }) := by
  unfold parseGoFile
  rw [h1]
  simp only [Bool.false_eq_true, if_false]
  have h2' : pkgCacheFresh
      { st with packageCache := mset st.packageCache f (getPackagePath f) }
      (getPackagePath f) now = false := h2
  rw [h2']
  simp only [Bool.false_eq_true, if_false]
  cases env with
  | parsed r => simp [isFailure] at hfail
  | parserNotReady => rfl
  | fileMissing => rfl
  | execFailure => rfl
  | jsonFailure => rfl
  | invalidResult => rfl

/-- Witness for C9: a parser-not-ready failure on an empty cache. -/
theorem parseGoFile_degrades_on_failure_witness :
    parseGoFile .parserNotReady ⟨[], [], [], [], []⟩ "a/b.go" 0 =
      (emptyResult,
       { (⟨[], [], [], [], []⟩ : ParserState) with
         packageCache := mset [] "a/b.go" (getPackagePath "a/b.go") }) :=
  parseGoFile_degrades_on_failure .parserNotReady ⟨[], [], [], [], []⟩ "a/b.go" 0
    (by decide) (by decide) (by decide)

/-- C10: the caches only ever hold results with at least one package: the
property is preserved by `parseGoFile` and both invalidation operations,
a hit on either tier returns a result with at least one package, and a
slow-path call whose result is empty (failure or empty parse) writes
nothing. -/
theorem cache_stores_only_nonempty
    (env : ExtractOutcome) (st : ParserState) (f : String) (now : Nat)
    (hinv : cacheResultsNonEmpty st) :
    cacheResultsNonEmpty (parseGoFile env st f now).2 ∧
    cacheResultsNonEmpty (clearCacheFile st f) ∧
    cacheResultsNonEmpty (clearCacheAll st) ∧
    (fileCacheFresh st f now = true → (parseGoFile env st f now).1.packages ≠ []) ∧
    (fileCacheFresh st f now = false →
      pkgCacheFresh st (getPackagePath f) now = true →
      (parseGoFile env st f now).1.packages ≠ []) ∧
    ((parseGoFileSlow env st f (getPackagePath f) now).1.packages = [] →
      (parseGoFileSlow env st f (getPackagePath f) now).2 = st) := by
  obtain ⟨hp1, hp2⟩ := hinv
  have hclear : cacheResultsNonEmpty (clearCacheFile st f) := by
    constructor
    · intro p hp
      exact hp1 p (mem_mdel (by simpa [clearCacheFile] using hp))
    · intro p hp
      exact hp2 p (mem_mdel (by simpa [clearCacheFile] using hp))
  have hall : cacheResultsNonEmpty (clearCacheAll st) := by
    constructor <;> simp [clearCacheAll]
  have hslowF : (parseGoFileSlow env st f (getPackagePath f) now).1.packages = [] →
      (parseGoFileSlow env st f (getPackagePath f) now).2 = st := by
    cases env with
    | parsed r =>
        by_cases h0 : 0 < r.packages.length
        · intro hcon
          have h1' : (parseGoFileSlow (.parsed r) st f (getPackagePath f) now).1 = r := by
            unfold parseGoFileSlow
            simp only []
            rw [if_pos h0]
          rw [h1'] at hcon
          rw [hcon] at h0
          simp at h0
        · intro _
          unfold parseGoFileSlow
          simp only []
          rw [if_neg h0]
    | parserNotReady => intro _; rfl
    | fileMissing => intro _; rfl
    | execFailure => intro _; rfl
    | jsonFailure => intro _; rfl
    | invalidResult => intro _; rfl
  by_cases hf : fileCacheFresh st f now = true
  · have heq : parseGoFile env st f now = ((mget st.fileCache f).getD emptyResult, st) := by
      unfold parseGoFile
      rw [hf]
      simp
    obtain ⟨r, hr⟩ := Option.isSome_iff_exists.mp (fileCache_isSome_of_fresh hf)
    have hrne : r.packages ≠ [] := hp2 (f, r) (mem_of_mget hr)
    refine ⟨?_, hclear, hall, ?_, ?_, hslowF⟩
    · rw [heq]
      exact ⟨hp1, hp2⟩
    · intro _
      rw [heq]
      simpa [hr] using hrne
    · intro h5 _
      rw [hf] at h5
      exact Bool.noConfusion h5
  · have hf' : fileCacheFresh st f now = false := by
      revert hf
      cases fileCacheFresh st f now <;> simp
    by_cases hp : pkgCacheFresh st (getPackagePath f) now = true
    · have heq : parseGoFile env st f now =
          ((mget st.parseCache (getPackagePath f)).getD emptyResult,
           { st with
             packageCache := mset st.packageCache f (getPackagePath f),
             fileCache := mset st.fileCache f
               ((mget st.parseCache (getPackagePath f)).getD emptyResult),
             fileCacheTimes := mset st.fileCacheTimes f now }) := by
        unfold parseGoFile
        rw [hf']
        simp only [Bool.false_eq_true, if_false]
        rw [show pkgCacheFresh
            { st with packageCache := mset st.packageCache f (getPackagePath f) }
            (getPackagePath f) now = true from hp]
        simp
      obtain ⟨r0, hr0⟩ := Option.isSome_iff_exists.mp (parseCache_isSome_of_fresh hp)
      have hr0ne : r0.packages ≠ [] := hp1 ((getPackagePath f), r0) (mem_of_mget hr0)
      refine ⟨?_, hclear, hall, ?_, ?_, hslowF⟩
      · rw [heq]
        constructor
        · intro p hpp
          exact hp1 p hpp
        · intro p hpp
          rcases mem_mset hpp with h9 | h9
          · rw [h9]
            simpa [hr0] using hr0ne
          · exact hp2 p h9
      · intro h5
        rw [hf'] at h5
        exact Bool.noConfusion h5
      · intro _ _
        rw [heq]
        simpa [hr0] using hr0ne
    · have hp' : pkgCacheFresh st (getPackagePath f) now = false := by
        revert hp
        cases pkgCacheFresh st (getPackagePath f) now <;> simp
      have heq : parseGoFile env st f now =
          parseGoFileSlow env
            { st with packageCache := mset st.packageCache f (getPackagePath f) }
            f (getPackagePath f) now := by
        unfold parseGoFile
        rw [hf']
        simp only [Bool.false_eq_true, if_false]
        rw [show pkgCacheFresh
            { st with packageCache := mset st.packageCache f (getPackagePath f) }
            (getPackagePath f) now = false from hp']
        simp only [Bool.false_eq_true, if_false]
      refine ⟨?_, hclear, hall, ?_, ?_, hslowF⟩
      · rw [heq]
        cases env with
        | parsed r =>
            by_cases h0 : 0 < r.packages.length
            · unfold parseGoFileSlow
              simp only []
              rw [if_pos h0]
              constructor
              · intro p hpp
                rcases mem_mset hpp with h9 | h9
                · rw [h9]
                  intro hcon
                  rw [hcon] at h0
                  simp at h0
                · exact hp1 p h9
              · intro p hpp
                rcases mem_mset hpp with h9 | h9
                · rw [h9]
                  intro hcon
                  rw [hcon] at h0
                  simp at h0
                · exact hp2 p h9
            · unfold parseGoFileSlow
              simp only []
              rw [if_neg h0]
              exact ⟨hp1, hp2⟩
        | parserNotReady => exact ⟨hp1, hp2⟩
        | fileMissing => exact ⟨hp1, hp2⟩
        | execFailure => exact ⟨hp1, hp2⟩
        | jsonFailure => exact ⟨hp1, hp2⟩
        | invalidResult => exact ⟨hp1, hp2⟩
      · intro h5
        rw [hf'] at h5
        exact Bool.noConfusion h5
      · intro _ h6
        rw [hp'] at h6
        exact Bool.noConfusion h6

/-- Witness for C10: a fresh file-tier hit on the sample cache returns the
cached one-package result and preserves the invariant. -/
theorem cache_stores_only_nonempty_witness :
    cacheResultsNonEmpty (parseGoFile (.parsed sampleResult) sampleParserState "a/b.go" 20).2 ∧
    cacheResultsNonEmpty (clearCacheFile sampleParserState "a/b.go") ∧
    cacheResultsNonEmpty (clearCacheAll sampleParserState) ∧
    (fileCacheFresh sampleParserState "a/b.go" 20 = true →
      (parseGoFile (.parsed sampleResult) sampleParserState "a/b.go" 20).1.packages ≠ []) ∧
    (fileCacheFresh sampleParserState "a/b.go" 20 = false →
      pkgCacheFresh sampleParserState (getPackagePath "a/b.go") 20 = true →
      (parseGoFile (.parsed sampleResult) sampleParserState "a/b.go" 20).1.packages ≠ []) ∧
    ((parseGoFileSlow (.parsed sampleResult) sampleParserState "a/b.go"
        (getPackagePath "a/b.go") 20).1.packages = [] →
      (parseGoFileSlow (.parsed sampleResult) sampleParserState "a/b.go"
        (getPackagePath "a/b.go") 20).2 = sampleParserState) :=
  cache_stores_only_nonempty (.parsed sampleResult) sampleParserState "a/b.go" 20
    (by constructor <;> decide)

/-- Witness for C4: a package declaring struct `MyService`; the explicit
pass over the extracted struct map changes nothing. -/
theorem getStructsInfo_records_no_forced_edges_witness :
    explicitPass [("Service", ["M"])]
      (getStructsInfo ⟨[("a", ⟨"a", "main", [], [⟨"MyService", 5, "f.go", []⟩], []⟩)]⟩
        ["Service"]) ⟨[], []⟩ = ⟨[], []⟩ :=
  (getStructsInfo_records_no_forced_edges
    ⟨[("a", ⟨"a", "main", [], [⟨"MyService", 5, "f.go", []⟩], []⟩)]⟩ ["Service"]).2
    [("Service", ["M"])] ⟨[], []⟩

/-- Witness for C7: forcing every extracted method onto a pointer receiver
leaves the aggregated method map unchanged. -/
theorem pointer_value_receiver_unification_witness :
    getImplementations (mapMethodsPtr (fun _ => true)
      ⟨[("a", ⟨"a", "main", [], [],
        [⟨"S", "M", 7, "f.go", false⟩]⟩)]⟩) =
    getImplementations
      ⟨[("a", ⟨"a", "main", [], [],
        [⟨"S", "M", 7, "f.go", false⟩]⟩)]⟩ :=
  (pointer_value_receiver_unification (fun _ => true)
    ⟨[("a", ⟨"a", "main", [], [], [⟨"S", "M", 7, "f.go", false⟩]⟩)]⟩
    [("I", ["M"])] none ["M"] "S").1
